import Mathlib

/-!
Verification of the helix persistence module
(`helix-view/src/persistence.rs`) against its natural-language
specification.  Files are represented by their decoded record
sequences, oldest first, exactly as the spec's record-codec section
describes the on-disk layout.
-/

set_option autoImplicit false

namespace Persistence

/-- Modelled from the spec: the cursor viewport data carried by history
entries.  The concrete `ViewPosition` type lives in `helix-view/src/view.rs`,
outside the provided sources; only its identity (equality of values) matters
to the persistence layer. -/
structure ViewPosition where
  anchor : Nat
  horizontal_offset : Nat
  vertical_offset : Nat
deriving DecidableEq, Repr

/-- Modelled from the spec: one selection range of a `helix-core` selection,
outside the provided sources; only value identity matters here. -/
structure SelRange where
  anchor : Nat
  head : Nat
deriving DecidableEq, Repr

/-- Modelled from the spec: the selection carried by history entries.  The
concrete `Selection` type lives in `helix-core`, outside the provided
sources; only value identity matters to the persistence layer. -/
structure Selection where
  ranges : List SelRange
  primary_index : Nat
deriving DecidableEq, Repr

/-- `FileHistoryEntry` from the source: last known viewport and selection
for a file. -/
structure FileHistoryEntry where
  path : String
  view_position : ViewPosition
  selection : Selection
deriving DecidableEq, Repr

/-- `Layout` from the source. -/
inductive Layout where
  | horizontal
  | vertical
deriving DecidableEq, Repr

/-- `SplitEntryLeaf` from the source. -/
structure SplitEntryLeaf where
  path : String
  view_position : ViewPosition
  selection : Selection
  focus : Bool
deriving DecidableEq, Repr

/-- `SplitEntryTree` from the source.  The source's `SplitEntryNode`
record (a layout together with a child list) is inlined into the `node`
constructor. -/
inductive SplitEntryTree where
  | leaf (l : Option SplitEntryLeaf)
  | node (layout : Layout) (children : List SplitEntryTree)
deriving Repr

/-- `SplitEntry` from the source: a named split-layout snapshot. -/
structure SplitEntry where
  name : String
  tree : SplitEntryTree
deriving Repr

/-- `PersistenceType` from the source. -/
inductive PersistenceType where
  | command
  | search
  | file
  | clipboard
  | splits
deriving DecidableEq, Repr

/-- `OptionToml` as used by the source's `match` arms: a possibly-unset
configuration option.  The declaration itself lives in the editor module,
outside the provided sources; its two constructors are forced by the
source's uses. -/
inductive OptionToml (α : Type) where
  | None
  | Some (val : α)
deriving DecidableEq, Repr

/-- `PersistenceScope` from the configuration layer: global state
directory, per-workspace directory, or an explicit directory. -/
inductive PersistenceScope where
  | allInOne
  | perWorkspace
  | dir (d : String)
deriving DecidableEq, Repr

/-- Modelled from the spec: the per-category settings triple of the
configuration layer (outside the provided sources). -/
structure PersistenceConfigOption where
  enabled : Bool
  max_entries : Nat
  scope : PersistenceScope
deriving DecidableEq, Repr

/-- Modelled from the spec: the two-level persistence configuration — one
possibly-unset override per category, the mandatory "all" default, and the
file-exclusion pattern set, modelled as abstract predicates because the
regex engine is an external collaborator. -/
structure PersistenceConfig where
  commands : OptionToml PersistenceConfigOption
  search : OptionToml PersistenceConfigOption
  clipboard : OptionToml PersistenceConfigOption
  old_files : OptionToml PersistenceConfigOption
  splits : OptionToml PersistenceConfigOption
  all : PersistenceConfigOption
  files_exclusions : List (String → Bool)

/-- `get_option` from the source: the category's override slot. -/
def get_option (cfg : PersistenceConfig) :
    PersistenceType → OptionToml PersistenceConfigOption
  | PersistenceType.command => cfg.commands
  | PersistenceType.search => cfg.search
  | PersistenceType.clipboard => cfg.clipboard
  | PersistenceType.file => cfg.old_files
  | PersistenceType.splits => cfg.splits

/-- `enabled` from the source: override if present, else the default. -/
def enabled (cfg : PersistenceConfig) (file : PersistenceType) : Bool :=
  match get_option cfg file with
  | OptionToml.None => cfg.all.enabled
  | OptionToml.Some opt => opt.enabled

/-- `max_entries` from the source: override if present, else the
default. -/
def max_entries (cfg : PersistenceConfig) (file : PersistenceType) : Nat :=
  match get_option cfg file with
  | OptionToml.None => cfg.all.max_entries
  | OptionToml.Some opt => opt.max_entries

/-- `scope` from the source: override if present, else the default. -/
def scope (cfg : PersistenceConfig) (file : PersistenceType) : PersistenceScope :=
  match get_option cfg file with
  | OptionToml.None => cfg.all.scope
  | OptionToml.Some opt => opt.scope

/-- `exclude` from the source: whether any exclusion pattern matches the
candidate path. -/
def exclude (cfg : PersistenceConfig) (path : String) : Bool :=
  cfg.files_exclusions.any (fun r => r path)

/-- The sanitization `persistence_dir` applies to the detected workspace
root under `PerWorkspace` scope, from the source: strip the leading path
separator — the `unwrap` after `strip_prefix` panics, modelled as `none`,
when the root does not begin with one — then replace every remaining
separator with a percent sign.  Paths are modelled as strings. -/
def sanitizeWorkspace (ws : String) : Option String :=
  match ws.data with
  | [] => none
  | c :: rest =>
    if c = '/' then
      some (String.mk (rest.map (fun ch => if ch = '/' then '%' else ch)))
    else none

/-- `persistence_dir` from the source.  The process-wide state directory
and the detected workspace root are external collaborators
(`state_dir()`, `find_workspace().0`), passed in as arguments;
`PathBuf::join` is modelled as interposing one separator.  A `none`
result models the panic of the `unwrap`. -/
def persistence_dir (state_dir ws_root : String) : PersistenceScope → Option String
  | PersistenceScope.allInOne => some state_dir
  | PersistenceScope.perWorkspace =>
    (sanitizeWorkspace ws_root).map (fun s => state_dir ++ "/" ++ s)
  | PersistenceScope.dir d => some d

/-- The fixed category-to-filename mapping of `default_file_path`, from
the source. -/
def categoryFileName : PersistenceType → String
  | PersistenceType.command => "command_history"
  | PersistenceType.search => "search_history"
  | PersistenceType.file => "file_history"
  | PersistenceType.clipboard => "clipboard"
  | PersistenceType.splits => "splits"

/-! ### The generic history store (helix-loader), modelled from the spec -/

/-- Modelled from the spec: `read_history` (helix-loader, not under the
provided sources) decodes the whole file and returns the stored records in
file (append) order, oldest first; the file is represented here directly
by its decoded content. -/
def read_history {α : Type} (stored : List α) : List α :=
  stored

/-- Modelled from the spec: `trim_history` (helix-loader, not under the
provided sources) reads all records and, if the count exceeds
`max_entries`, keeps only the last `max_entries` (dropping the oldest) and
rewrites the file; if the count is at most `max_entries` the file is left
untouched. -/
def trim_history {α : Type} (stored : List α) (max_entries : Nat) : List α :=
  if max_entries < stored.length then
    stored.drop (stored.length - max_entries)
  else
    stored

/-- The failures the environment can inject into one store operation:
a directory-creation failure during path resolution, and a failure of the
append write itself. -/
structure StoreEnv where
  dirErr : Option String
  ioErr : Option String
deriving DecidableEq, Repr

/-- A store error surfaced to the caller. -/
inductive StoreError where
  | dirFail (msg : String)
  | writeFail (msg : String)
deriving DecidableEq, Repr

/-- Modelled from the spec: `ensure_parent_dir` (helix-loader, outside the
provided sources) ensures the file's parent directory exists; creation
errors propagate as store errors. -/
def ensure_parent_dir (env : StoreEnv) : Except StoreError Unit :=
  match env.dirErr with
  | some e => Except.error (StoreError.dirFail e)
  | none => Except.ok ()

/-- Modelled from the spec: `push_history` (helix-loader, outside the
provided sources) appends one encoded record at the file's end; an I/O
failure surfaces to the caller, and on success the record is fully
written.  The file is represented by its decoded record list. -/
def push_history {α : Type} (env : StoreEnv) (file : List α) (entry : α) :
    Except StoreError (List α) :=
  match env.ioErr with
  | some e => Except.error (StoreError.writeFail e)
  | none => Except.ok (file ++ [entry])

/-- `default_file_path` from the source: resolve the scope directory
(`none` models the `PerWorkspace` panic), join the category's filename,
and ensure the parent directory exists, propagating its failure. -/
def default_file_path (cfg : PersistenceConfig) (state_dir ws_root : String)
    (env : StoreEnv) (file : PersistenceType) :
    Option (Except StoreError String) :=
  match persistence_dir state_dir ws_root (scope cfg file) with
  | none => none
  | some d =>
    some ((ensure_parent_dir env).map (fun _ => d ++ "/" ++ categoryFileName file))

/-- `push_file_history` from the source: resolve the file-history path and
append the entry; the wrapper adds no handling of its own, so a resolution
panic, a directory-creation error and an append error all pass through.
The file is identified by its category and represented by its decoded
content. -/
def push_file_history (cfg : PersistenceConfig) (state_dir ws_root : String)
    (env : StoreEnv) (stored : List FileHistoryEntry) (entry : FileHistoryEntry) :
    Option (Except StoreError (List FileHistoryEntry)) :=
  match default_file_path cfg state_dir ws_root env PersistenceType.file with
  | none => none
  | some (Except.error e) => some (Except.error e)
  | some (Except.ok _) => some (push_history env stored entry)

/-- The command-history and search-history files together, each
represented by its decoded content. -/
structure RegFiles where
  command : List String
  search : List String
deriving DecidableEq, Repr

/-- `push_reg_history` from the source: a push for register ':' goes to
the command-history file and one for '/' to the search-history file; a
push for any other register returns immediately, touching nothing. -/
def push_reg_history (cfg : PersistenceConfig) (state_dir ws_root : String)
    (env : StoreEnv) (regs : RegFiles) (register : Char) (line : String) :
    Option (Except StoreError RegFiles) :=
  if register = ':' then
    match default_file_path cfg state_dir ws_root env PersistenceType.command with
    | none => none
    | some (Except.error e) => some (Except.error e)
    | some (Except.ok _) =>
      some ((push_history env regs.command line).map
        (fun l => { regs with command := l }))
  else if register = '/' then
    match default_file_path cfg state_dir ws_root env PersistenceType.search with
    | none => none
    | some (Except.error e) => some (Except.error e)
    | some (Except.ok _) =>
      some ((push_history env regs.search line).map
        (fun l => { regs with search := l }))
  else
    some (Except.ok regs)

/-- The outcome one store operation has under the injected environment:
a directory-creation failure surfaces first, then a write failure, and
otherwise the operation succeeds with the given new content. -/
def storeOutcome {α : Type} (env : StoreEnv) (v : α) : Except StoreError α :=
  match env.dirErr with
  | some e => Except.error (StoreError.dirFail e)
  | none =>
    match env.ioErr with
    | some e => Except.error (StoreError.writeFail e)
    | none => Except.ok v

/-! ### Read accessors from the source -/

/-- `read_reg_history` from the source. -/
def read_reg_history (stored : List String) : List String :=
  read_history stored

/-- `read_command_history` from the source: read, then reverse in place —
newest first. -/
def read_command_history (stored : List String) : List String :=
  (read_reg_history stored).reverse

/-- `read_search_history` from the source: read, then reverse in place —
newest first. -/
def read_search_history (stored : List String) : List String :=
  (read_reg_history stored).reverse

/-- `read_file_history` from the source: stored order, no reversal. -/
def read_file_history (stored : List FileHistoryEntry) : List FileHistoryEntry :=
  read_history stored

/-- `read_clipboard_file` from the source: stored order, no reversal. -/
def read_clipboard_file (stored : List String) : List String :=
  read_history stored

/-! ### Concrete configurations and records for witnesses -/

/-- A configuration with explicit-directory scope, no overrides and no
exclusion patterns. -/
def cfgDir : PersistenceConfig :=
  { commands := OptionToml.None
    search := OptionToml.None
    clipboard := OptionToml.None
    old_files := OptionToml.None
    splits := OptionToml.None
    all := { enabled := true, max_entries := 3, scope := PersistenceScope.dir "d" }
    files_exclusions := [] }

/-- An override triple distinct from `cfgDir`'s default in every field. -/
def optOverride : PersistenceConfigOption :=
  { enabled := false, max_entries := 7, scope := PersistenceScope.dir "w" }

/-- `cfgDir` with an override on the commands category; the search
category still falls back to the default. -/
def cfgOverride : PersistenceConfig :=
  { cfgDir with commands := OptionToml.Some optOverride }

/-- A concrete file-history entry. -/
def fileEntry0 : FileHistoryEntry :=
  { path := "f"
    view_position := { anchor := 0, horizontal_offset := 0, vertical_offset := 0 }
    selection := { ranges := [], primary_index := 0 } }

/-- Concrete register-file contents. -/
def regs0 : RegFiles := { command := ["c0"], search := ["s0"] }

/-! ### The split-layout trim from the source

The Rust `HashMap` keyed by split name is modelled as an association list
in which `insert` overwrites the value of an existing key in place and
appends a new key at the end; `values` is the list of stored values. -/

/-- Key list of the association-list map. -/
def keysOf (m : List (String × SplitEntry)) : List String :=
  m.map Prod.fst

/-- `HashMap::insert` keyed by name: overwrite an existing key's value in
place, otherwise add the new binding. -/
def insertEntry (m : List (String × SplitEntry)) (e : SplitEntry) :
    List (String × SplitEntry) :=
  if e.name ∈ keysOf m then
    m.map (fun p => if p.1 = e.name then (p.1, e) else p)
  else
    m ++ [(e.name, e)]

/-- The scan loop of `trim_split_file` from the source: insert each entry
into the map, and break as soon as the map's size equals `max_entries`. -/
def trimGo (max_entries : Nat) (m : List (String × SplitEntry)) :
    List SplitEntry → List (String × SplitEntry)
  | [] => m
  | e :: rest =>
    let m' := insertEntry m e
    if m'.length = max_entries then m' else trimGo max_entries m' rest

/-- `trim_split_file` from the source: if fewer entries are stored than the
cap, do nothing; otherwise scan the stored entries in order through the
name-keyed map (with early stop) and rewrite the file with the map's
values. -/
def trim_split_file (stored : List SplitEntry) (max_entries : Nat) :
    List SplitEntry :=
  if stored.length < max_entries then
    stored
  else
    (trimGo max_entries [] stored).map Prod.snd

/-- Lookup of the surviving entry stored under a given name in a record
list (the first entry carrying that name). -/
def findByName (l : List SplitEntry) (nm : String) : Option SplitEntry :=
  l.find? (fun e => e.name == nm)

/-! ### Concrete split entries for the scenario claims -/

/-- First pushed snapshot named "A". -/
def entryA1 : SplitEntry :=
  { name := "A", tree := SplitEntryTree.leaf none }

/-- Snapshot named "B". -/
def entryB : SplitEntry :=
  { name := "B", tree := SplitEntryTree.leaf none }

/-- Second pushed snapshot named "A", carrying an updated tree. -/
def entryA2 : SplitEntry :=
  { name := "A", tree := SplitEntryTree.node Layout.horizontal [] }

/-! ### Spec-side description of the split trim (claim C2)

These definitions follow the spec's words for `trim_split_file`, to be
compared with the source-translated function above: the scan observes
stored entries in file order, tracking the set of names seen, and stops as
soon as the map holds `max_entries` distinct names; a later entry whose
name was already seen overwrites the earlier value (last occurrence in
scan order wins). -/

/-- Record a name as seen (a set of names in first-seen order). -/
def insertName (seen : List String) (nm : String) : List String :=
  if nm ∈ seen then seen else seen ++ [nm]

/-- The stored entries actually observed by the scan the spec describes:
entries are taken in file (append) order and scanning stops as soon as the
set of names seen holds `max_entries` distinct names, the stopping entry
included; entries after the stopping point are never observed. -/
def specScan (max_entries : Nat) (seen : List String) :
    List SplitEntry → List SplitEntry
  | [] => []
  | e :: rest =>
    if (insertName seen e.name).length = max_entries then [e]
    else e :: specScan max_entries (insertName seen e.name) rest

/-- Value lookup in the association-list map: first binding of the key. -/
def lookupName : List (String × SplitEntry) → String → Option SplitEntry
  | [], _ => none
  | p :: m, nm => if p.1 = nm then some p.2 else lookupName m nm

/-- First-defined-wins choice between two optional values. -/
def orElseOpt (x y : Option SplitEntry) : Option SplitEntry :=
  match x with
  | some v => some v
  | none => y

/-- The value the spec's name-keyed map holds for a name after scanning a
sequence of entries: the last occurrence of the name, in scan order,
wins. -/
def specLastWins : List SplitEntry → String → Option SplitEntry
  | [], _ => none
  | e :: q, nm =>
    orElseOpt (specLastWins q nm) (if e.name = nm then some e else none)

/-- Every binding of the association-list map stores an entry carrying the
binding's own key as its name. -/
def consistentKeys (m : List (String × SplitEntry)) : Prop :=
  ∀ p ∈ m, (Prod.snd p).name = p.1

/-! ### Length bounds for the split trim -/

theorem insertEntry_length_le (m : List (String × SplitEntry)) (e : SplitEntry) :
    (insertEntry m e).length ≤ m.length + 1 := by
  unfold insertEntry
  split
  · simp
  · simp

theorem trimGo_length_le (max_entries : Nat) :
    ∀ (l : List SplitEntry) (m : List (String × SplitEntry)),
      m.length < max_entries → (trimGo max_entries m l).length ≤ max_entries
  | [], m, h => Nat.le_of_lt h
  | e :: rest, m, h => by
    have hle : (insertEntry m e).length ≤ max_entries := by
      have := insertEntry_length_le m e
      omega
    unfold trimGo
    simp only []
    split
    · exact hle
    · exact trimGo_length_le max_entries rest (insertEntry m e)
        (by rename_i hne; omega)

/-! ### The source's split trim refines the spec's description (claim C2) -/

theorem orElseOpt_none_right (x : Option SplitEntry) : orElseOpt x none = x := by
  cases x <;> rfl

theorem keysOf_insertEntry (m : List (String × SplitEntry)) (e : SplitEntry) :
    keysOf (insertEntry m e) = insertName (keysOf m) e.name := by
  unfold insertEntry insertName
  split
  · unfold keysOf
    rw [List.map_map]
    refine List.map_congr_left ?_
    intro p _
    by_cases hp : p.1 = e.name
    · simp [hp]
    · simp [hp]
  · simp [keysOf]

theorem lookupName_eq_none_of_not_mem (nm : String) :
    ∀ m : List (String × SplitEntry), nm ∉ keysOf m → lookupName m nm = none
  | [], _ => rfl
  | p :: m, h => by
    rw [show keysOf (p :: m) = p.1 :: keysOf m from rfl, List.mem_cons] at h
    push_neg at h
    unfold lookupName
    rw [if_neg (fun hh => h.1 hh.symm)]
    exact lookupName_eq_none_of_not_mem nm m h.2

theorem lookup_update (e : SplitEntry) (nm : String) :
    ∀ m : List (String × SplitEntry),
      lookupName (m.map (fun p => if p.1 = e.name then (p.1, e) else p)) nm
        = if e.name = nm then (if e.name ∈ keysOf m then some e else none)
          else lookupName m nm
  | [] => by simp [lookupName, keysOf]
  | p :: m => by
    have ih := lookup_update e nm m
    by_cases hp : p.1 = e.name
    · by_cases hnm : e.name = nm
      · subst hnm
        simp [lookupName, hp, keysOf, List.mem_cons]
      · have hpn : ¬ p.1 = nm := fun hh => hnm (hp.symm.trans hh)
        simp [lookupName, hp, hnm, hpn, ih]
    · by_cases hnm : e.name = nm
      · subst hnm
        have hne : ¬ e.name = p.1 := fun hh => hp hh.symm
        rw [List.map_cons, if_neg hp]
        rw [show lookupName
            (p :: m.map (fun q => if q.1 = e.name then (q.1, e) else q)) e.name
          = if p.1 = e.name then some p.2
            else lookupName (m.map (fun q => if q.1 = e.name then (q.1, e) else q))
              e.name from rfl]
        rw [if_neg hp, ih, if_pos rfl, if_pos rfl]
        rw [show keysOf (p :: m) = p.1 :: keysOf m from rfl]
        simp [List.mem_cons, hne]
      · simp [lookupName, hp, hnm, ih]

theorem lookup_append_single (e : SplitEntry) (nm : String) :
    ∀ m : List (String × SplitEntry),
      lookupName (m ++ [(e.name, e)]) nm
        = orElseOpt (lookupName m nm) (if e.name = nm then some e else none)
  | [] => rfl
  | p :: m => by
    have ih := lookup_append_single e nm m
    by_cases hp : p.1 = nm <;> simp [lookupName, hp, ih, orElseOpt]

theorem lookupName_insertEntry (e : SplitEntry) (nm : String)
    (m : List (String × SplitEntry)) :
    lookupName (insertEntry m e) nm
      = if e.name = nm then some e else lookupName m nm := by
  unfold insertEntry
  split
  · rename_i hmem
    rw [lookup_update]
    by_cases hnm : e.name = nm
    · rw [if_pos hnm, if_pos hmem, if_pos hnm]
    · rw [if_neg hnm, if_neg hnm]
  · rename_i hmem
    rw [lookup_append_single]
    by_cases hnm : e.name = nm
    · rw [lookupName_eq_none_of_not_mem nm m (hnm ▸ hmem)]
      simp [hnm, orElseOpt]
    · rw [if_neg hnm, orElseOpt_none_right]
      rw [if_neg hnm]

theorem trimGo_eq (max_entries : Nat) :
    ∀ (l : List SplitEntry) (m : List (String × SplitEntry)),
      trimGo max_entries m l
        = (specScan max_entries (keysOf m) l).foldl insertEntry m
  | [], _ => rfl
  | e :: rest, m => by
    have hk := keysOf_insertEntry m e
    have hlen : (insertName (keysOf m) e.name).length = (insertEntry m e).length := by
      rw [← hk]
      simp [keysOf]
    unfold trimGo specScan
    simp only []
    by_cases hmax : (insertEntry m e).length = max_entries
    · rw [if_pos hmax, if_pos (by rw [hlen]; exact hmax)]
      rfl
    · rw [if_neg hmax, if_neg (by rw [hlen]; exact hmax)]
      rw [List.foldl_cons, trimGo_eq max_entries rest (insertEntry m e), hk]

theorem lookup_foldl (nm : String) :
    ∀ (q : List SplitEntry) (m : List (String × SplitEntry)),
      lookupName (q.foldl insertEntry m) nm
        = orElseOpt (specLastWins q nm) (lookupName m nm)
  | [], m => rfl
  | e :: q, m => by
    rw [List.foldl_cons, lookup_foldl nm q (insertEntry m e), lookupName_insertEntry]
    rw [show specLastWins (e :: q) nm
        = orElseOpt (specLastWins q nm) (if e.name = nm then some e else none) from rfl]
    cases specLastWins q nm
    · by_cases hnm : e.name = nm <;> simp [orElseOpt, hnm]
    · simp [orElseOpt]

theorem consistentKeys_insertEntry {m : List (String × SplitEntry)}
    (hm : consistentKeys m) (e : SplitEntry) : consistentKeys (insertEntry m e) := by
  unfold insertEntry
  split
  · intro p hp
    rw [List.mem_map] at hp
    obtain ⟨q, hq, rfl⟩ := hp
    by_cases h : q.1 = e.name
    · rw [if_pos h]
      exact h.symm
    · rw [if_neg h]
      exact hm q hq
  · intro p hp
    rcases List.mem_append.mp hp with h | h
    · exact hm p h
    · simp only [List.mem_singleton] at h
      subst h
      rfl

theorem keysNodup_insertEntry {m : List (String × SplitEntry)}
    (hm : (keysOf m).Nodup) (e : SplitEntry) : (keysOf (insertEntry m e)).Nodup := by
  rw [keysOf_insertEntry]
  unfold insertName
  split
  · exact hm
  · rename_i h
    rw [List.nodup_append]
    exact ⟨hm, List.nodup_singleton _, by simp [List.Disjoint]; intro a ha hae; exact h (hae ▸ ha)⟩

theorem foldl_insert_inv :
    ∀ (q : List SplitEntry) (m : List (String × SplitEntry)),
      (keysOf m).Nodup → consistentKeys m →
      (keysOf (q.foldl insertEntry m)).Nodup ∧ consistentKeys (q.foldl insertEntry m)
  | [], _, h1, h2 => ⟨h1, h2⟩
  | e :: q, m, h1, h2 =>
    foldl_insert_inv q (insertEntry m e)
      (keysNodup_insertEntry h1 e) (consistentKeys_insertEntry h2 e)

theorem mem_values_iff_lookup :
    ∀ m : List (String × SplitEntry), (keysOf m).Nodup → consistentKeys m →
      ∀ x : SplitEntry, (x ∈ m.map Prod.snd ↔ lookupName m x.name = some x)
  | [], _, _, x => by simp [lookupName]
  | (k, v) :: m, h1, h2, x => by
    rw [show keysOf ((k, v) :: m) = k :: keysOf m from rfl, List.nodup_cons] at h1
    have hk : v.name = k := h2 (k, v) (List.mem_cons_self _ _)
    have h2' : consistentKeys m := fun p hp => h2 p (List.mem_cons_of_mem _ hp)
    have ih := mem_values_iff_lookup m h1.2 h2' x
    rw [show ((k, v) :: m).map Prod.snd = v :: m.map Prod.snd from rfl,
      show lookupName ((k, v) :: m) x.name
        = if k = x.name then some v else lookupName m x.name from rfl]
    constructor
    · intro hx
      rcases List.mem_cons.mp hx with hx | hx
      · subst hx
        rw [if_pos hk.symm]
      · have hl := ih.mp hx
        have hmem : x.name ∈ keysOf m := by
          by_contra hno
          rw [lookupName_eq_none_of_not_mem x.name m hno] at hl
          exact Option.noConfusion hl
        rw [if_neg (fun hc : k = x.name => h1.1 (by rw [hc]; exact hmem))]
        exact hl
    · intro hl
      by_cases hc : k = x.name
      · rw [if_pos hc] at hl
        exact List.mem_cons.mpr (Or.inl (Option.some.inj hl).symm)
      · rw [if_neg hc] at hl
        exact List.mem_cons.mpr (Or.inr (ih.mpr hl))

theorem names_values (m : List (String × SplitEntry)) (h : consistentKeys m) :
    (m.map Prod.snd).map SplitEntry.name = keysOf m := by
  rw [List.map_map]
  exact List.map_congr_left (fun p hp => h p hp)

/-- C2: for a stored split sequence whose count is not below the cap,
`trim_split_file` rewrites the file to hold exactly the values of the
name-keyed map built by scanning the stored entries in file order, where a
later entry with an already-seen name overwrites the earlier value
(`specLastWins`), and where scanning stops as soon as the map holds
`max_entries` distinct names (`specScan`), so entries after the stopping
point are never observed; the surviving names are pairwise distinct. -/
theorem c2_trim_split_refines_spec (stored : List SplitEntry) (max_entries : Nat)
    (h : max_entries ≤ stored.length) :
    (∀ e : SplitEntry,
        e ∈ trim_split_file stored max_entries
          ↔ specLastWins (specScan max_entries [] stored) e.name = some e)
    ∧ ((trim_split_file stored max_entries).map SplitEntry.name).Nodup := by
  have hfile : trim_split_file stored max_entries
      = ((specScan max_entries [] stored).foldl insertEntry []).map Prod.snd := by
    unfold trim_split_file
    rw [if_neg (Nat.not_lt.mpr h), trimGo_eq]
    rfl
  have hinv := foldl_insert_inv (specScan max_entries [] stored) []
    List.nodup_nil (fun p hp => absurd hp (List.not_mem_nil p))
  constructor
  · intro e
    rw [hfile, mem_values_iff_lookup _ hinv.1 hinv.2 e, lookup_foldl,
      show lookupName [] e.name = none from rfl, orElseOpt_none_right]
  · rw [hfile, names_values _ hinv.2]
    exact hinv.1

/-- C2 witness: the cap-2 scenario instantiates the refinement theorem. -/
theorem c2_trim_split_refines_spec_witness :
    (entryA1 ∈ trim_split_file [entryA1, entryB, entryA2] 2
      ↔ specLastWins (specScan 2 [] [entryA1, entryB, entryA2]) entryA1.name
          = some entryA1)
    ∧ ((trim_split_file [entryA1, entryB, entryA2] 2).map SplitEntry.name).Nodup :=
  ⟨(c2_trim_split_refines_spec [entryA1, entryB, entryA2] 2 (by decide)).1 entryA1,
   (c2_trim_split_refines_spec [entryA1, entryB, entryA2] 2 (by decide)).2⟩

/-! ### Claims C1, C3, C4 -/

/-- C1 counterexample: with cap 2, after pushing the split entries named
"A", "B", "A" in that order (the second "A" updated) and trimming, the
surviving value stored under "A" is the FIRST pushed entry, not the second:
the scan breaks as soon as "B" brings the map to 2 distinct names, so the
updated "A" is never observed. -/
theorem c1_second_A_does_not_survive :
    findByName (trim_split_file [entryA1, entryB, entryA2] 2) "A" = some entryA1
    ∧ entryA1 ≠ entryA2 := by
  refine ⟨rfl, ?_⟩
  intro h
  simp [entryA1, entryA2] at h

/-- C1 (amended): with cap 2, after pushing split entries named "A", "B",
"A" in that order, trimming leaves exactly 2 distinct names ("A" and "B"),
and the surviving value under "A" is the first pushed entry (the scan stops
once "B" brings the map to the cap, so the later "A" is never observed). -/
theorem c1_split_dedup_scenario :
    (trim_split_file [entryA1, entryB, entryA2] 2).length = 2
    ∧ (trim_split_file [entryA1, entryB, entryA2] 2).map SplitEntry.name = ["A", "B"]
    ∧ findByName (trim_split_file [entryA1, entryB, entryA2] 2) "A" = some entryA1
    ∧ findByName (trim_split_file [entryA1, entryB, entryA2] 2) "B" = some entryB :=
  ⟨rfl, rfl, rfl, rfl⟩

/-- C3 counterexample: with the splits cap set to 0 and one stored split
entry, `trim_split_file` does not trim at all (the early-stop condition is
checked only after an insertion, so it never fires), leaving 1 > 0 records
— `read_all` after `trim(path, 0)` can return more than 0 records. -/
theorem c3_zero_cap_split_exceeds :
    (read_history (trim_split_file [entryA1] 0)).length = 1 := rfl

/-- C3 (amended): after `trim(path, N)`, for plain (non-split) categories
the retained records are exactly the last N previously stored, oldest
dropped first with surviving order unchanged (hence at most N records);
for the splits category, the record count after trimming is at most N
provided N is at least 1. -/
theorem c3_trim_cap (α : Type) (l : List α) (N : Nat) (sl : List SplitEntry) :
    trim_history l N = l.drop (l.length - N)
    ∧ (read_history (trim_history l N)).length ≤ N
    ∧ (1 ≤ N → (read_history (trim_split_file sl N)).length ≤ N) := by
  have h1 : trim_history l N = l.drop (l.length - N) := by
    unfold trim_history
    split
    · rfl
    · rename_i h
      rw [Nat.sub_eq_zero_of_le (Nat.le_of_not_lt h), List.drop_zero]
  refine ⟨h1, ?_, ?_⟩
  · rw [show read_history (trim_history l N) = trim_history l N from rfl, h1]
    simp only [List.length_drop]
    omega
  · intro hN
    rw [show read_history (trim_split_file sl N) = trim_split_file sl N from rfl]
    unfold trim_split_file
    split
    · rename_i h; exact Nat.le_of_lt h
    · rw [List.length_map]
      exact trimGo_length_le N sl [] (by simp only [List.length_nil]; omega)

/-- C3 witness: the spec's own scenario with cap 3 — pushing "a", "1",
"2", "3" and trimming keeps exactly the last three entries — plus the
splits bound at cap 3. -/
theorem c3_trim_cap_witness :
    trim_history ["a", "1", "2", "3"] 3 = ["1", "2", "3"]
    ∧ (read_history (trim_history ["a", "1", "2", "3"] 3)).length ≤ 3
    ∧ (read_history (trim_split_file [entryA1, entryB, entryA2] 3)).length ≤ 3 := by
  have h := c3_trim_cap String ["a", "1", "2", "3"] 3 [entryA1, entryB, entryA2]
  exact ⟨h.1, h.2.1, h.2.2 (by decide)⟩

/-- C4 counterexample: a splits file holding 2 entries that share the name
"A", trimmed with cap 2, is rewritten down to a single entry even though
its entry count does not exceed the cap: the splits no-op guard is strict
(`count < cap`), and at `count = cap` the duplicate collapses. -/
theorem c4_trim_at_cap_rewrites :
    ([entryA1, entryA2] : List SplitEntry).length ≤ 2
    ∧ trim_split_file [entryA1, entryA2] 2 ≠ [entryA1, entryA2] := by
  refine ⟨by decide, ?_⟩
  intro h
  rw [show trim_split_file [entryA1, entryA2] 2 = [entryA2] from rfl] at h
  exact absurd (congrArg List.length h) (by decide)

/-- C4 (amended): trimming a plain-category file whose entry count is at
most the cap leaves it unchanged; trimming a splits file whose entry count
is strictly below the cap leaves it unchanged (at exactly the cap the
splits trim does rewrite the file). -/
theorem c4_trim_noop (α : Type) (l : List α) (N : Nat) (sl : List SplitEntry)
    (h1 : l.length ≤ N) (h2 : sl.length < N) :
    trim_history l N = l ∧ trim_split_file sl N = sl := by
  constructor
  · unfold trim_history
    rw [if_neg (by omega)]
  · unfold trim_split_file
    rw [if_pos h2]

/-- C4 witness: a plain file with one entry and cap 2, and a splits file
with one entry and cap 2, are both left unchanged by trim. -/
theorem c4_trim_noop_witness :
    trim_history ["x"] 2 = ["x"] ∧ trim_split_file [entryA1] 2 = [entryA1] :=
  c4_trim_noop String ["x"] 2 [entryA1] (by decide) (by decide)

/-! ### Claims C5 and C6: error propagation of the store operations -/

/-- C5: a directory-creation failure during path resolution and an I/O
failure during the append are each propagated to the caller as a store
error, and with no failure the record is appended — no store operation
fails silently.  The hypotheses say only that the configured scopes
resolve (no `PerWorkspace` panic intervenes). -/
theorem c5_store_errors_propagate (cfg : PersistenceConfig)
    (state_dir ws_root : String) (env : StoreEnv)
    (stored : List FileHistoryEntry) (entry : FileHistoryEntry)
    (regs : RegFiles) (line : String)
    (hf : ∃ d, persistence_dir state_dir ws_root (scope cfg PersistenceType.file)
        = some d)
    (hc : ∃ d, persistence_dir state_dir ws_root (scope cfg PersistenceType.command)
        = some d)
    (hs : ∃ d, persistence_dir state_dir ws_root (scope cfg PersistenceType.search)
        = some d) :
    push_file_history cfg state_dir ws_root env stored entry
        = some (storeOutcome env (stored ++ [entry]))
    ∧ push_reg_history cfg state_dir ws_root env regs ':' line
        = some (storeOutcome env { regs with command := regs.command ++ [line] })
    ∧ push_reg_history cfg state_dir ws_root env regs '/' line
        = some (storeOutcome env { regs with search := regs.search ++ [line] }) := by
  obtain ⟨df, hdf⟩ := hf
  obtain ⟨dc, hdc⟩ := hc
  obtain ⟨ds, hds⟩ := hs
  obtain ⟨de, ie⟩ := env
  refine ⟨?_, ?_, ?_⟩
  · unfold push_file_history default_file_path
    rw [hdf]
    cases de <;> cases ie <;> rfl
  · unfold push_reg_history default_file_path
    rw [if_pos rfl, hdc]
    cases de <;> cases ie <;> rfl
  · unfold push_reg_history default_file_path
    rw [if_neg (by decide), if_pos rfl, hds]
    cases de <;> cases ie <;> rfl

/-- C5 witness: under explicit-directory scope, an injected
directory-creation failure surfaces as a store error, an injected write
failure surfaces as a store error, and with no failure the line is
appended. -/
theorem c5_store_errors_propagate_witness :
    push_file_history cfgDir "st" "/w" { dirErr := some "boom", ioErr := none }
        [] fileEntry0
      = some (Except.error (StoreError.dirFail "boom"))
    ∧ push_reg_history cfgDir "st" "/w" { dirErr := none, ioErr := some "disk" }
        regs0 ':' "cmd"
      = some (Except.error (StoreError.writeFail "disk"))
    ∧ push_reg_history cfgDir "st" "/w" { dirErr := none, ioErr := none }
        regs0 '/' "pat"
      = some (Except.ok { command := ["c0"], search := ["s0", "pat"] }) :=
  ⟨(c5_store_errors_propagate cfgDir "st" "/w" { dirErr := some "boom", ioErr := none }
      [] fileEntry0 regs0 "cmd" ⟨"d", rfl⟩ ⟨"d", rfl⟩ ⟨"d", rfl⟩).1,
   (c5_store_errors_propagate cfgDir "st" "/w" { dirErr := none, ioErr := some "disk" }
      [] fileEntry0 regs0 "cmd" ⟨"d", rfl⟩ ⟨"d", rfl⟩ ⟨"d", rfl⟩).2.1,
   (c5_store_errors_propagate cfgDir "st" "/w" { dirErr := none, ioErr := none }
      [] fileEntry0 regs0 "pat" ⟨"d", rfl⟩ ⟨"d", rfl⟩ ⟨"d", rfl⟩).2.2⟩

/-- C6 counterexample: a push for register 'x' is a user-initiated push
that the store silently ignores — the result reports success, no store
error is produced, the files are untouched and the line is written
nowhere — and the path-exclusion filter is not involved, since the
configuration holds no exclusion patterns at all. -/
theorem c6_register_push_silently_skipped :
    push_reg_history cfgDir "st" "/w" { dirErr := none, ioErr := none }
        regs0 'x' "hello"
      = some (Except.ok regs0)
    ∧ "hello" ∉ regs0.command
    ∧ "hello" ∉ regs0.search
    ∧ cfgDir.files_exclusions = ([] : List (String → Bool)) :=
  ⟨rfl, by decide, by decide, rfl⟩

/-- C6 (amended): a push for the persisted registers ':' and '/' either
writes the record or reports a store error, but the store has a second
intentional skip besides the path-exclusion filter: a push for any other
register is silently ignored, succeeding without writing. -/
theorem c6_push_writes_or_errors (cfg : PersistenceConfig)
    (state_dir ws_root : String) (env : StoreEnv) (regs : RegFiles)
    (line : String) (register : Char)
    (hc : ∃ d, persistence_dir state_dir ws_root (scope cfg PersistenceType.command)
        = some d)
    (hs : ∃ d, persistence_dir state_dir ws_root (scope cfg PersistenceType.search)
        = some d) :
    push_reg_history cfg state_dir ws_root env regs ':' line
        = some (storeOutcome env { regs with command := regs.command ++ [line] })
    ∧ push_reg_history cfg state_dir ws_root env regs '/' line
        = some (storeOutcome env { regs with search := regs.search ++ [line] })
    ∧ (register ≠ ':' → register ≠ '/' →
        push_reg_history cfg state_dir ws_root env regs register line
          = some (Except.ok regs)) := by
  obtain ⟨dc, hdc⟩ := hc
  obtain ⟨ds, hds⟩ := hs
  obtain ⟨de, ie⟩ := env
  refine ⟨?_, ?_, ?_⟩
  · unfold push_reg_history default_file_path
    rw [if_pos rfl, hdc]
    cases de <;> cases ie <;> rfl
  · unfold push_reg_history default_file_path
    rw [if_neg (by decide), if_pos rfl, hds]
    cases de <;> cases ie <;> rfl
  · intro h1 h2
    unfold push_reg_history
    rw [if_neg h1, if_neg h2]

/-- C6 amended-claim witness: a concrete ':' push succeeds by appending,
and a concrete 'z' push is silently skipped. -/
theorem c6_push_writes_or_errors_witness :
    push_reg_history cfgDir "st" "/w" { dirErr := none, ioErr := none }
        regs0 ':' "cmd"
      = some (Except.ok { command := ["c0", "cmd"], search := ["s0"] })
    ∧ push_reg_history cfgDir "st" "/w" { dirErr := none, ioErr := none }
        regs0 'z' "cmd"
      = some (Except.ok regs0) :=
  ⟨(c6_push_writes_or_errors cfgDir "st" "/w" { dirErr := none, ioErr := none }
      regs0 "cmd" 'z' ⟨"d", rfl⟩ ⟨"d", rfl⟩).1,
   (c6_push_writes_or_errors cfgDir "st" "/w" { dirErr := none, ioErr := none }
      regs0 "cmd" 'z' ⟨"d", rfl⟩ ⟨"d", rfl⟩).2.2 (by decide) (by decide)⟩

/-! ### Claim C7: read order per category -/

/-- C7: command-history and search-history reads return the stored
records in reverse of on-disk (append, oldest-first) order — newest
first — while file-history and clipboard reads return them in stored
order without reversal. -/
theorem c7_read_order (cmd search clip : List String)
    (files : List FileHistoryEntry) (x : String) :
    read_command_history cmd = cmd.reverse
    ∧ read_search_history search = search.reverse
    ∧ read_file_history files = files
    ∧ read_clipboard_file clip = clip
    ∧ (read_command_history (cmd ++ [x])).head? = some x
    ∧ (read_search_history (search ++ [x])).head? = some x := by
  refine ⟨rfl, rfl, rfl, rfl, ?_, ?_⟩ <;>
    simp [read_command_history, read_search_history, read_reg_history, read_history]

/-! ### Claim C8: two-level configuration fallback -/

/-- C8: for every category and each of the three settings, a present
category-specific override wins, and an absent one falls back to the
"all" default. -/
theorem c8_config_fallback (cfg : PersistenceConfig) (t : PersistenceType) :
    (∀ o : PersistenceConfigOption, get_option cfg t = OptionToml.Some o →
        enabled cfg t = o.enabled ∧ max_entries cfg t = o.max_entries
          ∧ scope cfg t = o.scope)
    ∧ (get_option cfg t = OptionToml.None →
        enabled cfg t = cfg.all.enabled ∧ max_entries cfg t = cfg.all.max_entries
          ∧ scope cfg t = cfg.all.scope) := by
  constructor
  · intro o ho
    unfold enabled max_entries scope
    rw [ho]
    exact ⟨rfl, rfl, rfl⟩
  · intro ho
    unfold enabled max_entries scope
    rw [ho]
    exact ⟨rfl, rfl, rfl⟩

/-- C8 witness: with an override on the commands category and none on the
search category, each accessor returns the override's values for commands
and the "all" default's values for search. -/
theorem c8_config_fallback_witness :
    (enabled cfgOverride PersistenceType.command = false
      ∧ max_entries cfgOverride PersistenceType.command = 7
      ∧ scope cfgOverride PersistenceType.command = PersistenceScope.dir "w")
    ∧ (enabled cfgOverride PersistenceType.search = true
      ∧ max_entries cfgOverride PersistenceType.search = 3
      ∧ scope cfgOverride PersistenceType.search = PersistenceScope.dir "d") :=
  ⟨(c8_config_fallback cfgOverride PersistenceType.command).1 optOverride rfl,
   (c8_config_fallback cfgOverride PersistenceType.search).2 rfl⟩

/-! ### Claims C9 and C10: the scope resolver -/

/-- C9: the scope resolver maps `AllInOne` to the state directory,
`Dir(explicit)` to the explicit path verbatim, and `PerWorkspace` to the
state directory joined with the detected workspace root stripped of its
leading separator and with every remaining separator replaced by a
percent sign. -/
theorem c9_persistence_dir_maps (state_dir ws_root d : String) :
    persistence_dir state_dir ws_root PersistenceScope.allInOne = some state_dir
    ∧ persistence_dir state_dir ws_root (PersistenceScope.dir d) = some d
    ∧ (ws_root.data.head? = some '/' →
        persistence_dir state_dir ws_root PersistenceScope.perWorkspace
          = some (state_dir ++ "/"
              ++ String.mk ((ws_root.data.drop 1).map
                  (fun c => if c = '/' then '%' else c)))) := by
  refine ⟨rfl, rfl, ?_⟩
  intro h
  unfold persistence_dir sanitizeWorkspace
  cases hd : ws_root.data with
  | nil =>
    rw [hd] at h
    exact Option.noConfusion h
  | cons c rest =>
    rw [hd] at h
    have hc : c = '/' := Option.some.inj h
    subst hc
    rfl

/-- C9 witness: with state directory "st" and workspace root "/a/b", the
per-workspace directory is "st/a%b"; the other scopes map as stated. -/
theorem c9_persistence_dir_maps_witness :
    persistence_dir "st" "/a/b" PersistenceScope.allInOne = some "st"
    ∧ persistence_dir "st" "/a/b" (PersistenceScope.dir "x") = some "x"
    ∧ persistence_dir "st" "/a/b" PersistenceScope.perWorkspace = some "st/a%b" :=
  ⟨(c9_persistence_dir_maps "st" "/a/b" "x").1,
   (c9_persistence_dir_maps "st" "/a/b" "x").2.1,
   (c9_persistence_dir_maps "st" "/a/b" "x").2.2 rfl⟩

/-- C10: resolving the `PerWorkspace` scope succeeds exactly when the
detected workspace root begins with the path separator; for any other
workspace root the `unwrap` panics (modelled as `none`) instead of
returning a path. -/
theorem c10_perWorkspace_requires_leading_sep (state_dir ws_root : String) :
    (ws_root.data.head? = some '/' →
      (persistence_dir state_dir ws_root PersistenceScope.perWorkspace).isSome
        = true)
    ∧ (ws_root.data.head? ≠ some '/' →
      persistence_dir state_dir ws_root PersistenceScope.perWorkspace = none) := by
  constructor
  · intro h
    unfold persistence_dir sanitizeWorkspace
    cases hd : ws_root.data with
    | nil =>
      rw [hd] at h
      exact Option.noConfusion h
    | cons c rest =>
      rw [hd] at h
      have hc : c = '/' := Option.some.inj h
      subst hc
      rfl
  · intro h
    unfold persistence_dir sanitizeWorkspace
    cases hd : ws_root.data with
    | nil => rfl
    | cons c rest =>
      have hc : ¬ c = '/' := by
        intro hcc
        apply h
        rw [hd, hcc]
        rfl
      show Option.map (fun s => state_dir ++ "/" ++ s)
          (if c = '/' then
            some (String.mk (rest.map (fun ch => if ch = '/' then '%' else ch)))
          else none) = none
      rw [if_neg hc]
      rfl

/-- C10 witness: "/a" resolves, "ab" panics. -/
theorem c10_perWorkspace_requires_leading_sep_witness :
    (persistence_dir "st" "/a" PersistenceScope.perWorkspace).isSome = true
    ∧ persistence_dir "st" "ab" PersistenceScope.perWorkspace = none :=
  ⟨(c10_perWorkspace_requires_leading_sep "st" "/a").1 rfl,
   (c10_perWorkspace_requires_leading_sep "st" "ab").2 (by decide)⟩

end Persistence
